import Mathlib

set_option maxRecDepth 8000

namespace Trolley

/-! Shallow embedding of the trolley migration scripts.

The repository moves CRM records from Twenty to Attio.  The embedded parts are
the retrying API client and the migration executor of
crm_migration/migrate.py, the paginated extractor and record flattener of the
same file, the duplicate detector of find_duplicates.py, and the merge
resolver of merge_duplicates.py.  Python dictionaries are modelled as
insertion-ordered association lists, JSON bodies as the Value type below, and
network effects as explicit call traces driven by an environment describing
the responses of the remote services. -/

/-- Values of the Python data model used by the scripts: JSON scalars, lists
and string-keyed dictionaries.  Dictionaries keep insertion order, matching
CPython. -/
inductive Value where
  | vnull : Value
  | vbool (b : Bool) : Value
  | vnum (n : Int) : Value
  | vstr (s : String) : Value
  | varr (xs : List Value) : Value
  | vobj (fields : List (String × Value)) : Value

/-- First binding of a key in an association list, the Python dict lookup. -/
def lookupField (fields : List (String × Value)) (k : String) : Option Value :=
  match fields with
  | [] => Option.none
  | (k2, v) :: rest => if k2 = k then some v else lookupField rest k

/-- Python dict.get with an explicit default value. -/
def dictGet (fields : List (String × Value)) (k : String) (dflt : Value) : Value :=
  (lookupField fields k).getD dflt

/-- Python dict assignment: replaces the first binding of the key in place and
otherwise appends a new binding at the end, matching insertion order. -/
def setKey (fields : List (String × Value)) (k : String) (v : Value) :
    List (String × Value) :=
  match fields with
  | [] => [(k, v)]
  | (k2, v2) :: rest => if k2 = k then (k, v) :: rest else (k2, v2) :: setKey rest k v

/-- Python truthiness of a value. -/
def pyTruthy : Value → Bool
  | .vnull => false
  | .vbool b => b
  | .vnum n => n != 0
  | .vstr s => s != ""
  | .varr xs => !xs.isEmpty
  | .vobj fs => !fs.isEmpty

/-- Python str() on the values that occur in the migrated records.  The
container cases are placeholders: they are never exercised by the records the
theorems below quantify over, every rendered value there is a scalar. -/
def pyStrOf : Value → String
  | .vstr s => s
  | .vnum n => toString n
  | .vnull => "None"
  | .vbool b => if b then "True" else "False"
  | .varr _ => "list"
  | .vobj _ => "dict"

/-- Python split on a one-character separator, accumulator form. -/
def splitCharAux (sep : Char) : List Char → List Char → List String
  | [], cur => [String.mk cur.reverse]
  | c :: cs, cur =>
      if c == sep then String.mk cur.reverse :: splitCharAux sep cs []
      else splitCharAux sep cs (c :: cur)

/-- Python split of a string on a one-character separator. -/
def pySplitChar (sep : Char) (s : String) : List String :=
  splitCharAux sep s.data []

/-- Python strip: drop leading and trailing whitespace. -/
def trimChars (s : String) : String :=
  String.mk (((s.data.dropWhile Char.isWhitespace).reverse.dropWhile Char.isWhitespace).reverse)

/-- Python membership test of a character in a string. -/
def pyContainsChar (s : String) (c : Char) : Bool :=
  s.data.any (fun d => d == c)

/-- Python lower() on a string. -/
def pyLower (s : String) : String :=
  String.mk (s.data.map Char.toLower)

/-- Check whether the second character list starts with the first one. -/
def startsWithChars : List Char → List Char → Bool
  | [], _ => true
  | _ :: _, [] => false
  | a :: as, b :: bs => a == b && startsWithChars as bs

/-- Substring occurrence test on character lists. -/
def containsSub (needle : List Char) : List Char → Bool
  | [] => needle.isEmpty
  | c :: cs => startsWithChars needle (c :: cs) || containsSub needle cs

/-- Python substring membership test, the in-operator on strings. -/
def strContainsSub (hay needle : String) : Bool :=
  containsSub needle.data hay.data

/-- Python rstrip restricted to the slash character, as used on the xLink URL
in flatten_record. -/
def rstripSlash (s : String) : String :=
  String.mk ((s.data.reverse.dropWhile (fun c => c == '/')).reverse)

/-- Handle normalisation applied to the xLink URL by flatten_record in
crm_migration/migrate.py: when the URL is non-empty it is stripped, reduced to
its last path segment when a known social domain occurs (dropping trailing
slashes first and then a query suffix), and finally truncated at the first
literal dot when one remains. -/
def cleanXUrl (s : String) : String :=
  if s == "" then s
  else
    let cleaned := trimChars s
    let cleaned :=
      if strContainsSub cleaned "twitter.com/" || strContainsSub cleaned "x.com/" then
        (pySplitChar '?' ((pySplitChar '/' (rstripSlash cleaned)).getLastD "")).headD ""
      else cleaned
    if pyContainsChar cleaned '.' then (pySplitChar '.' cleaned).headD "" else cleaned

/-- Segment of a string after its last slash, stated in the words of the
specification of the handle-normalisation algorithm. -/
def lastSlashSegment (t : String) : String :=
  (pySplitChar '/' t).getLastD ""

/-- Drop of the query suffix after a question mark, stated in the words of the
specification. -/
def stripQuerySuffix (t : String) : String :=
  (pySplitChar '?' t).headD ""

/-- Truncation at the first literal dot when one occurs, stated in the words
of the specification. -/
def truncAtFirstDot (t : String) : String :=
  if pyContainsChar t '.' then (pySplitChar '.' t).headD "" else t

/-- Handle-normalisation pipeline written from the words of the specification,
to be compared with the cleanXUrl function taken from the source. -/
def specHandleNorm (t : String) : String :=
  truncAtFirstDot (stripQuerySuffix (lastSlashSegment t))

/-- Shallow embedding of flatten_record from crm_migration/migrate.py.  It
copies the record and derives name_full, email_primary, linkedin_url and
x_url from the nested Twenty fields; each derived key is set whenever the
nested field is a dictionary, which includes the absent case because the
Python default is an empty dictionary. -/
def flatten_record (record : Value) : Value :=
  match record with
  | .vobj fs =>
      let flat := fs
      let flat :=
        match dictGet fs "name" (.vobj []) with
        | .vobj nf =>
            setKey flat "name_full"
              (.vstr (trimChars (pyStrOf (dictGet nf "firstName" (.vstr "")) ++ " " ++
                pyStrOf (dictGet nf "lastName" (.vstr "")))))
        | _ => flat
      let flat :=
        match dictGet fs "emails" (.vobj []) with
        | .vobj ef => setKey flat "email_primary" (dictGet ef "primaryEmail" (.vstr ""))
        | _ => flat
      let flat :=
        match dictGet fs "linkedinLink" (.vobj []) with
        | .vobj lf => setKey flat "linkedin_url" (dictGet lf "primaryLinkUrl" (.vstr ""))
        | _ => flat
      let flat :=
        match dictGet fs "xLink" (.vobj []) with
        | .vobj xf =>
            let xv := dictGet xf "primaryLinkUrl" (.vstr "")
            let xv :=
              match xv with
              | .vstr u => Value.vstr (cleanXUrl u)
              | other => other
            setKey flat "x_url" xv
        | _ => flat
      .vobj flat
  | other => other

/-- Python split with maxsplit one on a single space, accumulator form. -/
def splitFirstSpaceAux : List Char → List Char → String × String
  | [], acc => (String.mk acc.reverse, "")
  | c :: cs, acc =>
      if c == ' ' then (String.mk acc.reverse, String.mk cs)
      else splitFirstSpaceAux cs (c :: acc)

/-- Name splitting of execute_migration: Python split with maxsplit one on a
space, yielding the first component and the remainder, with the remainder
empty when no space occurs. -/
def splitFirstSpace (s : String) : String × String :=
  splitFirstSpaceAux s.data []

/-- Condition under which execute_migration keeps a mapped source value: the
Python guard requires the value to be neither None nor the empty string. -/
def keepValue : Value → Bool
  | .vnull => false
  | .vstr s => s != ""
  | _ => true

/-- Per-target-field encoders of execute_migration in crm_migration/migrate.py
(lines 550-609): personal name, email address, location, the social text
fields, and the fallback that wraps strings and passes other values through. -/
def encodeField (targetField : String) (value : Value) : Value :=
  if targetField == "name" then
    let parts := splitFirstSpace (pyStrOf value)
    .varr [.vobj [("full_name", value), ("first_name", .vstr parts.1),
      ("last_name", .vstr parts.2)]]
  else if targetField == "email_addresses" then
    .varr [.vobj [("email_address", value)]]
  else if targetField == "primary_location" then
    .varr [.vobj [("line_1", .vstr ""), ("line_2", .vstr ""), ("line_3", .vstr ""),
      ("line_4", .vstr ""), ("locality", value), ("region", .vstr ""),
      ("postcode", .vstr ""), ("country_code", .vnull), ("latitude", .vnull),
      ("longitude", .vnull)]]
  else if targetField == "linkedin" || targetField == "twitter" ||
      targetField == "facebook" || targetField == "instagram" ||
      targetField == "angellist" then
    .varr [.vobj [("value", value)]]
  else
    match value with
    | .vstr s => .varr [.vobj [("value", .vstr s)]]
    | other => other

/-- Payload values dictionary built per record by execute_migration: the loop
over the field mapping, skipping absent, None and empty-string source values
and dispatching to the per-field encoders. -/
def buildValues (mapping : List (String × String)) (record : Value) :
    List (String × Value) :=
  let fs := match record with | .vobj fs => fs | _ => []
  mapping.foldl
    (fun vals p =>
      match lookupField fs p.1 with
      | some v => if keepValue v then setKey vals p.2 (encodeField p.2 v) else vals
      | _ => vals)
    []

/-- Identifier taken from the source record by execute_migration, with the
literal unknown default. -/
def twentyIdOf (record : Value) : Value :=
  match record with
  | .vobj fs => dictGet fs "id" (.vstr "unknown")
  | _ => .vstr "unknown"

/-- Mutating write issued to the target API by execute_migration. -/
inductive ApiCall where
  | post (endpoint : String) (body : Value) : ApiCall
  | put (endpoint : String) (body : Value) (matchingAttribute : String) : ApiCall

/-- Outcome of the single target API call made for one record: the retry layer
raised after exhausting its retries (covering non-2xx statuses and transport
failures), or a 2xx response came back whose JSON body either parsed to the
given value or was unparseable. -/
inductive CallResult where
  | raisedErr (msg : String) : CallResult
  | ok2xx (body : Option Value) : CallResult

/-- Result recorded for one record by the migration logger: log_success or
log_error with the Twenty identifier and the Attio identifier or error. -/
inductive RecResult where
  | success (twentyId : Value) (attioId : Value) : RecResult
  | failure (twentyId : Value) (errMsg : String) : RecResult

/-- Records endpoint of the target object. -/
def recordsEndpoint (targetObject : String) : String :=
  "/objects/" ++ targetObject ++ "/records"

/-- Upsert condition of execute_migration: the built values hold a truthy
email_addresses entry. -/
def emailUpsertable (vals : List (String × Value)) : Bool :=
  match lookupField vals "email_addresses" with
  | some v => pyTruthy v
  | _ => false

/-- Success classification block of execute_migration as exercised on the PUT
branch, where the response is a Response object: parse the body, read
data.id.record_id when present, fall back to the upserted sentinel when the
data key is absent, and to the upserted-no-content sentinel through the bare
except when the body is unparseable or subscripting raises.  The list and
string cases mirror the Python membership test on non-dictionary JSON, whose
subsequent subscript raises into the bare except. -/
def classifyPutResponse (tid : Value) (body : Option Value) : RecResult :=
  match body with
  | Option.none => .success tid (.vstr "upserted-no-content")
  | some parsed =>
      match parsed with
      | .vobj pf =>
          match lookupField pf "data" with
          | some (.vobj df) =>
              (match dictGet df "id" (.vobj []) with
               | .vobj idf => .success tid (dictGet idf "record_id" .vnull)
               | _ => .success tid (.vstr "upserted-no-content"))
          | some _ => .success tid (.vstr "upserted-no-content")
          | Option.none => .success tid (.vstr "upserted")
      | .varr xs =>
          if xs.any (fun x => match x with | .vstr s => s == "data" | _ => false) then
            .success tid (.vstr "upserted-no-content")
          else .success tid (.vstr "upserted")
      | .vstr s =>
          if strContainsSub s "data" then .success tid (.vstr "upserted-no-content")
          else .success tid (.vstr "upserted")
      | _ => .success tid (.vstr "upserted-no-content")

/-- Live-mode processing of one record by execute_migration.  On the people
upsert branch the raw Response is classified by classifyPutResponse; on the
create branch the client post method has already parsed the body, so a 2xx
with a truthy parsed body reaches the bare except through the attribute error
of calling json() on a dictionary and is logged with the upserted-no-content
sentinel, a 2xx whose body fails to parse raises out of post into the outer
except as a failure, and a falsy parsed body is logged as the no-response
failure. -/
def liveStep (env : CallResult) (targetObject : String)
    (mapping : List (String × String)) (record : Value) :
    RecResult × List ApiCall :=
  let tid := twentyIdOf record
  let vals := buildValues mapping record
  let body := Value.vobj [("data", Value.vobj [("values", Value.vobj vals)])]
  let ep := recordsEndpoint targetObject
  if targetObject == "people" && emailUpsertable vals then
    (match env with
     | .raisedErr m => (.failure tid m, [.put ep body "email_addresses"])
     | .ok2xx b => (classifyPutResponse tid b, [.put ep body "email_addresses"]))
  else
    (match env with
     | .raisedErr m => (.failure tid m, [.post ep body])
     | .ok2xx Option.none => (.failure tid "JSONDecodeError", [.post ep body])
     | .ok2xx (some parsed) =>
         if pyTruthy parsed then (.success tid (.vstr "upserted-no-content"), [.post ep body])
         else (.failure tid "No response or empty response", [.post ep body]))

/-- Migration executor over the selected records: dry-run short-circuits to a
synthetic success without touching the client, live mode performs one API
call per record whose outcome the environment gives by record index.  Returns
the logged results in order together with the trace of issued calls. -/
def execute_migration (dryRun : Bool) (targetObject : String)
    (mapping : List (String × String)) (env : Nat → CallResult) :
    List Value → Nat → List RecResult × List ApiCall
  | [], _ => ([], [])
  | r :: rs, i =>
      let step :=
        if dryRun then
          ((RecResult.success (twentyIdOf r) (.vstr "dry-run-id")), ([] : List ApiCall))
        else liveStep (env i) targetObject mapping r
      let rest := execute_migration dryRun targetObject mapping env rs (i + 1)
      (step.1 :: rest.1, step.2 ++ rest.2)

/-- Sub-keys of the single list element stored under a key of the built
values, used to state the shape of the location payload. -/
def subKeys (vals : List (String × Value)) (k : String) : List String :=
  match lookupField vals k with
  | some (.varr [.vobj l]) => l.map Prod.fst
  | _ => []

/-- Outcome of one attempt inside APIClient.request: the session returned a
response that passed raise_for_status, or raise_for_status raised an HTTP
error, or the session raised a request exception. -/
inductive AttemptResult where
  | succeedsWith (resp : Value) : AttemptResult
  | httpError (msg : String) : AttemptResult
  | requestError (msg : String) : AttemptResult

/-- Final result of APIClient.request: a returned response, a re-raised
exception, or Python None from the line after the retry loop. -/
inductive RequestResult where
  | okResp (resp : Value) : RequestResult
  | raisedErr (msg : String) : RequestResult
  | fellThrough : RequestResult

/-- Observable trace of one APIClient.request call: its final result, the
backoff sleeps performed in order, and the number of attempts made. -/
structure ReqTrace where
  result : RequestResult
  sleeps : List Nat
  attemptsMade : Nat

/-- Retry loop of APIClient.request in crm_migration/migrate.py, iterating
over the attempt indices of range(MAX_RETRIES): a successful attempt returns
at once, a failure on the final index re-raises, and an earlier failure
sleeps two to the power of the attempt index and continues. -/
def requestGo (env : Nat → AttemptResult) (maxRetries : Nat) : List Nat → ReqTrace
  | [] => ⟨.fellThrough, [], 0⟩
  | i :: rest =>
      match env i with
      | .succeedsWith r => ⟨.okResp r, [], 1⟩
      | .httpError m =>
          if i = maxRetries - 1 then ⟨.raisedErr m, [], 1⟩
          else
            let t := requestGo env maxRetries rest
            ⟨t.result, 2 ^ i :: t.sleeps, t.attemptsMade + 1⟩
      | .requestError m =>
          if i = maxRetries - 1 then ⟨.raisedErr m, [], 1⟩
          else
            let t := requestGo env maxRetries rest
            ⟨t.result, 2 ^ i :: t.sleeps, t.attemptsMade + 1⟩

/-- APIClient.request: the retry loop over range(MAX_RETRIES) followed by the
trailing return of None. -/
def request (env : Nat → AttemptResult) (maxRetries : Nat) : ReqTrace :=
  requestGo env maxRetries (List.range maxRetries)

/-- Transient failure of one attempt. -/
def isFailure : AttemptResult → Bool
  | .succeedsWith _ => false
  | _ => true

/-- Message carried by a failing attempt. -/
def failMsg : AttemptResult → String
  | .succeedsWith _ => ""
  | .httpError m => m
  | .requestError m => m

/-- Result the APIClient.get call yields for one page request inside
extract_records: the retry layer raised (retries exhausted, or the body
failed to parse inside get), request returned Python None, or a parsed JSON
body came back. -/
inductive PageFetch where
  | raisesErr (msg : String) : PageFetch
  | noneResp : PageFetch
  | page (body : Value) : PageFetch

/-- Batch extraction of extract_records: a list body is the batch itself, a
dictionary body is indexed by the object name defaulting to the empty list,
and anything else gives the empty batch. -/
def batchOf (objectName : String) (data : Value) : List Value :=
  match data with
  | .varr xs => xs
  | .vobj fs =>
      match dictGet fs objectName (.varr []) with
      | .varr ys => ys
      | _ => []
  | _ => []

/-- Next cursor read from the response metadata by extract_records, with the
empty-dictionary default for a missing meta key. -/
def metaCursor (fs : List (String × Value)) : Value :=
  match dictGet fs "meta" (.vobj []) with
  | .vobj mf => dictGet mf "next_cursor" .vnull
  | _ => .vnull

/-- Pagination loop of extract_records in crm_migration/migrate.py.  The page
list gives the successive outcomes of the client get calls; a raise inside
the loop propagates (there is no try around the loop body), a falsy or
data-less response breaks, an empty batch breaks, and otherwise the flattened
batch is accumulated and the loop continues while the next cursor is truthy. -/
def extractLoop (objectName : String) : List PageFetch → List Value →
    Except String (List Value)
  | [], acc => .ok acc
  | f :: fs, acc =>
      match f with
      | .raisesErr m => .error m
      | .noneResp => .ok acc
      | .page body =>
          match body with
          | .vobj bf =>
              if pyTruthy (.vobj bf) then
                match lookupField bf "data" with
                | some d =>
                    let batch := batchOf objectName d
                    if batch.isEmpty then .ok acc
                    else
                      let acc2 := acc ++ batch.map flatten_record
                      if pyTruthy (metaCursor bf) then extractLoop objectName fs acc2
                      else .ok acc2
                | _ => .ok acc
              else .ok acc
          | _ => .ok acc

/-- Extraction of all records of one object: the pagination loop started with
an empty accumulator.  An error value is an exception propagating out of
extract_records to its caller. -/
def extract_records (objectName : String) (pages : List PageFetch) :
    Except String (List Value) :=
  extractLoop objectName pages []

/-- Page on which the pagination loop fetches, accumulates and continues: a
truthy dictionary body with a data key, a non-empty batch and a truthy next
cursor. -/
def continuingPage (objectName : String) : PageFetch → Bool
  | .page (.vobj bf) =>
      pyTruthy (.vobj bf) &&
      (match lookupField bf "data" with
       | some d => !(batchOf objectName d).isEmpty
       | _ => false) &&
      pyTruthy (metaCursor bf)
  | _ => false

/-- Company record summary built by the merge script from a fetched record:
identifier, name, domain list and creation timestamp. -/
structure CompanyRec where
  id : String
  name : String
  domains : List String
  created_at : Nat
deriving DecidableEq

/-- Mutating call issued to the target API by the merge script: a record
delete or a domains update. -/
inductive MergeCall where
  | deleteCall (id : String) : MergeCall
  | updateCall (id : String) (domains : List String) : MergeCall

/-- Environment of the merge script: whether the delete of a record and the
domains update of a record succeed on the server. -/
structure MergeEnv where
  deleteOk : String → Bool
  updateOk : String → Bool

/-- Ascending order on creation timestamps used by the sort in the merge
script. -/
def creLE (a b : CompanyRec) : Prop :=
  a.created_at ≤ b.created_at

instance : DecidableRel creLE :=
  fun a b => Nat.decLe a.created_at b.created_at

instance : IsTotal CompanyRec creLE :=
  ⟨fun a b => Nat.le_total a.created_at b.created_at⟩

instance : IsTrans CompanyRec creLE :=
  ⟨fun _ _ _ => Nat.le_trans⟩

/-- Stable ascending sort by creation timestamp, modelling the Python list
sort with the created_at key; the Python sort is stable, as is insertion
sort, so the two agree element for element. -/
def sortByCreated (recs : List CompanyRec) : List CompanyRec :=
  List.insertionSort creLE recs

/-- Removal of duplicates keeping first occurrences, accumulator form. -/
def dedupAux (seen : List String) : List String → List String
  | [] => []
  | x :: xs => if seen.contains x then dedupAux seen xs else x :: dedupAux (x :: seen) xs

/-- Removal of duplicates from a list of strings, keeping first occurrences. -/
def dedupFirst (l : List String) : List String :=
  dedupAux [] l

/-- Union of the domains of the master and the other records, the Python set
built by the merge script; the set is represented canonically by first
occurrences, theorems about it are stated through membership. -/
def unionDomains (master : CompanyRec) (others : List CompanyRec) : List String :=
  dedupFirst (master.domains ++ (others.map (fun o => o.domains)).flatten)

/-- Domains update applied to the server state when the PATCH of the merge
script succeeds. -/
def applyUpdate (state : List CompanyRec) (rid : String) (ds : List String) :
    List CompanyRec :=
  state.map (fun r => if r.id == rid then { r with domains := ds } else r)

/-- Delete loop of the merge script over the other records: each takes a
delete call; a successful delete removes the record from the server state and
the loop continues, a failed delete stops at once with the failure flag, as
the Python loop breaks after the first failed delete. -/
def deleteOthers (env : MergeEnv) (state : List CompanyRec) :
    List CompanyRec → List CompanyRec × (List MergeCall × Bool)
  | [] => (state, ([], true))
  | o :: os =>
      if env.deleteOk o.id then
        let t := deleteOthers env (state.filter (fun r => !(r.id == o.id))) os
        (t.1, (MergeCall.deleteCall o.id :: t.2.1, t.2.2))
      else (state, ([MergeCall.deleteCall o.id], false))

/-- Merge of one duplicate group by merge_duplicates.py (lines 140-187): sort
the group by creation timestamp, take the earliest as master, delete the
others one at a time, and only when every delete succeeded issue the update
of the master with the unioned domains, applying it to the state when the
server accepts it. -/
def mergeGroup (env : MergeEnv) (state : List CompanyRec)
    (recs : List CompanyRec) : List CompanyRec × List MergeCall :=
  match sortByCreated recs with
  | [] => (state, [])
  | master :: others =>
      let d := deleteOthers env state others
      if d.2.2 then
        let finalDomains := unionDomains master others
        let s2 := if env.updateOk master.id then applyUpdate d.1 master.id finalDomains
                  else d.1
        (s2, d.2.1 ++ [MergeCall.updateCall master.id finalDomains])
      else (d.1, d.2.1)

/-- Loop of the merge script over all duplicate groups: each group is merged
against the state left by the previous one, and a failure inside a group
moves on to the next group. -/
def processGroups (env : MergeEnv) (state : List CompanyRec) :
    List (List CompanyRec) → List CompanyRec × List MergeCall
  | [] => (state, [])
  | g :: gs =>
      let p := mergeGroup env state g
      let q := processGroups env p.1 gs
      (q.1, p.2 ++ q.2)

/-- Person summary appended to the email map by process_people in
find_duplicates.py. -/
structure PersonEntry where
  pid : Value
  pname : Value
  emails : List String
  createdAt : Value

/-- Record identifier read by the duplicate scripts through the nested id
dictionary; the scripts index the keys directly, the null fallback models
inputs the scripts never see. -/
def recordIdOf (r : Value) : Value :=
  match r with
  | .vobj fs =>
      match lookupField fs "id" with
      | some (.vobj idf) => (lookupField idf "record_id").getD .vnull
      | _ => .vnull
  | _ => .vnull

/-- Full name extraction of process_people: first element of the name values
when the list is truthy, with the literal Unknown default. -/
def personNameOf (values : List (String × Value)) : Value :=
  match dictGet values "name" (.varr []) with
  | .varr (v :: _) =>
      match v with
      | .vobj nf => dictGet nf "full_name" (.vstr "Unknown")
      | _ => .vstr "Unknown"
  | _ => .vstr "Unknown"

/-- Email extraction of process_people: every truthy email address of the
record, lowercased, in order. -/
def personEmailsOf (values : List (String × Value)) : List String :=
  match dictGet values "email_addresses" (.varr []) with
  | .varr es =>
      es.filterMap (fun e =>
        match e with
        | .vobj ef =>
            match lookupField ef "email_address" with
            | some (.vstr s) => if s == "" then Option.none else some (pyLower s)
            | _ => Option.none
        | _ => Option.none)
  | _ => []

/-- Summary built by process_people for one fetched record. -/
def personEntryOf (r : Value) : PersonEntry :=
  let values :=
    match r with
    | .vobj fs =>
        match dictGet fs "values" (.vobj []) with
        | .vobj vf => vf
        | _ => []
    | _ => []
  { pid := recordIdOf r
    pname := personNameOf values
    emails := personEmailsOf values
    createdAt :=
      match r with
      | .vobj fs => dictGet fs "created_at" .vnull
      | _ => .vnull }

/-- Append of one entry under a key of the email map, preserving the
insertion order of a Python defaultdict of lists. -/
def appendEntry : List (String × List PersonEntry) → String → PersonEntry →
    List (String × List PersonEntry)
  | [], k, e => [(k, [e])]
  | (k2, es) :: rest, k, e =>
      if k2 = k then (k2, es ++ [e]) :: rest else (k2, es) :: appendEntry rest k e

/-- Duplicate detection for people of find_duplicates.py (lines 62-93): group
the records by each of their lowercased email addresses and keep only the
groups with more than one entry. -/
def process_people (records : List Value) : List (String × List PersonEntry) :=
  let m := records.foldl
    (fun m r =>
      (personEntryOf r).emails.foldl (fun m2 e => appendEntry m2 e (personEntryOf r)) m)
    []
  m.filter (fun p => decide (1 < p.2.length))

/-- Scenario record of the duplicate-detection property: first person sharing
the address, with an uppercased mailbox. -/
def dupRecord1 : Value :=
  Value.vobj [("id", Value.vobj [("record_id", Value.vstr "p1")]),
    ("values", Value.vobj [("name", Value.varr [Value.vobj [("full_name", Value.vstr "Ann One")]]),
      ("email_addresses", Value.varr [Value.vobj [("email_address", Value.vstr "A@b.com")]])]),
    ("created_at", Value.vstr "2024-01-01")]

/-- Scenario record of the duplicate-detection property: second person sharing
the address. -/
def dupRecord2 : Value :=
  Value.vobj [("id", Value.vobj [("record_id", Value.vstr "p2")]),
    ("values", Value.vobj [("name", Value.varr [Value.vobj [("full_name", Value.vstr "Ann Two")]]),
      ("email_addresses", Value.varr [Value.vobj [("email_address", Value.vstr "a@b.com")]])]),
    ("created_at", Value.vstr "2024-01-02")]

/-- Scenario record of the duplicate-detection property: unrelated third
person. -/
def dupRecord3 : Value :=
  Value.vobj [("id", Value.vobj [("record_id", Value.vstr "p3")]),
    ("values", Value.vobj [("name", Value.varr [Value.vobj [("full_name", Value.vstr "Cal Three")]]),
      ("email_addresses", Value.varr [Value.vobj [("email_address", Value.vstr "c@d.com")]])]),
    ("created_at", Value.vstr "2024-01-03")]

/-- Summary the detector builds for the first scenario record. -/
def dupEntry1 : PersonEntry :=
  ⟨Value.vstr "p1", Value.vstr "Ann One", ["a@b.com"], Value.vstr "2024-01-01"⟩

/-- Summary the detector builds for the second scenario record. -/
def dupEntry2 : PersonEntry :=
  ⟨Value.vstr "p2", Value.vstr "Ann Two", ["a@b.com"], Value.vstr "2024-01-02"⟩

/-- Scenario master of the merge property: earliest created company holding
one domain. -/
def mergeM : CompanyRec := ⟨"m", "acme", ["a.com"], 1⟩

/-- Scenario first duplicate of the merge property. -/
def mergeO1 : CompanyRec := ⟨"o1", "acme", ["b.com"], 2⟩

/-- Scenario second duplicate of the merge property, whose delete fails. -/
def mergeO2 : CompanyRec := ⟨"o2", "acme", ["a.com", "c.com"], 3⟩

/-- Scenario environment of the merge property: every delete succeeds except
the one of the second duplicate, updates succeed. -/
def mergeEnvFail : MergeEnv := ⟨fun i => !(i == "o2"), fun _ => true⟩

/-! Helper lemmas. -/

lemma mem_dedupAux (a : String) :
    ∀ (l seen : List String), a ∈ dedupAux seen l ↔ (a ∈ l ∧ a ∉ seen) := by
  intro l
  induction l with
  | nil => intro seen; simp [dedupAux]
  | cons x xs ih =>
      intro seen
      by_cases hx : x ∈ seen
      · have hc : seen.contains x = true := by simpa using hx
        simp only [dedupAux, hc, if_true]
        rw [ih seen, List.mem_cons]
        constructor
        · rintro ⟨h1, h2⟩; exact ⟨Or.inr h1, h2⟩
        · rintro ⟨h1, h2⟩
          rcases h1 with rfl | h1
          · exact absurd hx h2
          · exact ⟨h1, h2⟩
      · have hc : seen.contains x = false := by simpa using hx
        simp only [dedupAux, hc, Bool.false_eq_true, if_false, List.mem_cons]
        rw [ih (x :: seen)]
        by_cases hax : a = x
        · subst hax; simp [hx]
        · simp [hax]

lemma mem_dedupFirst (a : String) (l : List String) :
    a ∈ dedupFirst l ↔ a ∈ l := by
  rw [dedupFirst, mem_dedupAux]
  simp

lemma rstripSlash_eq_self (t : String) (h : t.data.getLast? ≠ some '/') :
    rstripSlash t = t := by
  have hd : t.data.reverse.dropWhile (fun c => c == '/') = t.data.reverse := by
    rcases hrev : t.data.reverse with _ | ⟨c, cs⟩
    · rfl
    · have hlast : t.data.getLast? = some c := by
        rw [← List.head?_reverse, hrev]; rfl
      have hc : (c == '/') = false := by
        apply beq_eq_false_iff_ne.mpr
        intro hcc
        exact h (by rw [hlast, hcc])
      rw [List.dropWhile_cons, hc]
      simp
  unfold rstripSlash
  rw [hd, List.reverse_reverse]

lemma deleteOthers_calls_delete (env : MergeEnv) :
    ∀ (os : List CompanyRec) (s : List CompanyRec) (c : MergeCall),
      c ∈ (deleteOthers env s os).2.1 → ∃ i, c = MergeCall.deleteCall i := by
  intro os
  induction os with
  | nil => intro s c hc; simp [deleteOthers] at hc
  | cons o os ih =>
      intro s c hc
      cases hok : env.deleteOk o.id with
      | true =>
          simp only [deleteOthers, hok, if_true, List.mem_cons] at hc
          rcases hc with rfl | hc
          · exact ⟨o.id, rfl⟩
          · exact ih _ c hc
      | false =>
          simp only [deleteOthers, hok, Bool.false_eq_true, if_false,
            List.mem_singleton] at hc
          exact ⟨o.id, hc⟩

lemma deleteOthers_filter (env : MergeEnv) (m : String) :
    ∀ (os : List CompanyRec) (s : List CompanyRec), m ∉ os.map (fun o => o.id) →
      (deleteOthers env s os).1.filter (fun r => r.id == m) =
        s.filter (fun r => r.id == m) := by
  intro os
  induction os with
  | nil => intro s _; rfl
  | cons o os ih =>
      intro s hm
      rw [List.map_cons, List.mem_cons] at hm
      push_neg at hm
      cases hok : env.deleteOk o.id with
      | false => simp [deleteOthers, hok]
      | true =>
          simp only [deleteOthers, hok, if_true]
          rw [ih _ hm.2, List.filter_filter]
          apply List.filter_congr
          intro r _
          by_cases hr : r.id = m
          · have h1 : (r.id == m) = true := beq_iff_eq.mpr hr
            have h2 : (r.id == o.id) = false := by
              apply beq_eq_false_iff_ne.mpr
              rw [hr]
              exact hm.1
            rw [h1, h2]
            rfl
          · have h1 : (r.id == m) = false := beq_eq_false_iff_ne.mpr hr
            rw [h1]
            simp

lemma deleteOthers_allOk (env : MergeEnv) :
    ∀ (os : List CompanyRec) (s : List CompanyRec),
      (∀ o ∈ os, env.deleteOk o.id = true) →
      (deleteOthers env s os).2.1 = os.map (fun o => MergeCall.deleteCall o.id) ∧
      (deleteOthers env s os).2.2 = true := by
  intro os
  induction os with
  | nil => intro s _; exact ⟨rfl, rfl⟩
  | cons o os ih =>
      intro s hall
      have hok : env.deleteOk o.id = true := hall o (List.mem_cons_self o os)
      have ihs := ih (s.filter (fun r => !(r.id == o.id)))
        (fun o2 ho2 => hall o2 (List.mem_cons_of_mem o ho2))
      simp only [deleteOthers, hok, if_true, List.map_cons]
      exact ⟨by rw [ihs.1], ihs.2⟩

lemma deleteOthers_anyFail (env : MergeEnv) :
    ∀ (os : List CompanyRec) (s : List CompanyRec),
      (∃ o ∈ os, env.deleteOk o.id = false) →
      (deleteOthers env s os).2.2 = false := by
  intro os
  induction os with
  | nil => rintro s ⟨o, ho, _⟩; simp at ho
  | cons o os ih =>
      rintro s ⟨o2, ho2, hfail⟩
      cases hok : env.deleteOk o.id with
      | false => simp [deleteOthers, hok]
      | true =>
          simp only [deleteOthers, hok, if_true]
          rcases List.mem_cons.mp ho2 with rfl | ho2
          · rw [hok] at hfail; cases hfail
          · exact ih _ ⟨o2, ho2, hfail⟩

lemma applyUpdate_filter (s : List CompanyRec) (mid : String) (ds : List String) :
    (applyUpdate s mid ds).filter (fun r => r.id == mid) =
      (s.filter (fun r => r.id == mid)).map (fun r => { r with domains := ds }) := by
  rw [applyUpdate, List.filter_map]
  have hpred : ∀ r ∈ s,
      ((fun r2 : CompanyRec => r2.id == mid) ∘
        (fun r2 => if r2.id == mid then { r2 with domains := ds } else r2)) r =
        (fun r2 : CompanyRec => r2.id == mid) r := by
    intro r _
    by_cases hr : (r.id == mid) = true
    · show ((if (r.id == mid) = true then { r with domains := ds } else r).id == mid) =
        (r.id == mid)
      rw [if_pos hr, hr]
    · show ((if (r.id == mid) = true then { r with domains := ds } else r).id == mid) =
        (r.id == mid)
      rw [if_neg hr]
  rw [List.filter_congr hpred]
  apply List.map_eq_map_iff.mpr
  intro r hr
  have h1 := (List.mem_filter.mp hr).2
  show (if (r.id == mid) = true then { r with domains := ds } else r) =
    { r with domains := ds }
  rw [if_pos h1]

lemma requestGo_allFail (env : Nat → AttemptResult) (n : Nat)
    (hf : ∀ j, j < n → isFailure (env j) = true) :
    ∀ (k i : Nat), 1 ≤ k → i + k = n →
      requestGo env n (List.range' i k) =
        ⟨.raisedErr (failMsg (env (n - 1))), (List.range' i (k - 1)).map (fun j => 2 ^ j), k⟩ := by
  intro k
  induction k with
  | zero => intro i h1 _; omega
  | succ k ih =>
      intro i h1 h2
      have hi : i < n := by omega
      have hfi := hf i hi
      rw [List.range'_succ]
      rcases henv : env i with r | m | m
      · rw [henv] at hfi; simp [isFailure] at hfi
      · simp only [requestGo, henv]
        by_cases hlast : i = n - 1
        · have hk : k = 0 := by omega
          subst hk
          rw [if_pos hlast, ← hlast, henv]
          rfl
        · have hk : 1 ≤ k := by omega
          rw [if_neg hlast, ih (i + 1) hk (by omega)]
          have hrange : List.range' i (k + 1 - 1) = i :: List.range' (i + 1) (k - 1) := by
            have : k + 1 - 1 = (k - 1) + 1 := by omega
            rw [this, List.range'_succ]
          rw [hrange, List.map_cons]
      · simp only [requestGo, henv]
        by_cases hlast : i = n - 1
        · have hk : k = 0 := by omega
          subst hk
          rw [if_pos hlast, ← hlast, henv]
          rfl
        · have hk : 1 ≤ k := by omega
          rw [if_neg hlast, ih (i + 1) hk (by omega)]
          have hrange : List.range' i (k + 1 - 1) = i :: List.range' (i + 1) (k - 1) := by
            have : k + 1 - 1 = (k - 1) + 1 := by omega
            rw [this, List.range'_succ]
          rw [hrange, List.map_cons]

lemma requestGo_result (env : Nat → AttemptResult) (n : Nat) :
    ∀ (k i : Nat), 1 ≤ k → i + k = n →
      (requestGo env n (List.range' i k)).result ≠ RequestResult.fellThrough ∧
      (∀ r, (requestGo env n (List.range' i k)).result = .okResp r →
        ∃ j, j < n ∧ env j = .succeedsWith r) := by
  intro k
  induction k with
  | zero => intro i h1 _; omega
  | succ k ih =>
      intro i h1 h2
      have hi : i < n := by omega
      rw [List.range'_succ]
      rcases henv : env i with r0 | m | m
      · simp only [requestGo, henv]
        refine ⟨fun hcon => RequestResult.noConfusion hcon, fun r hr => ?_⟩
        have : r0 = r := RequestResult.okResp.inj hr
        exact ⟨i, hi, by rw [henv, this]⟩
      · simp only [requestGo, henv]
        by_cases hlast : i = n - 1
        · rw [if_pos hlast]
          exact ⟨fun hcon => RequestResult.noConfusion hcon,
            fun r hr => RequestResult.noConfusion hr⟩
        · have hk : 1 ≤ k := by omega
          rw [if_neg hlast]
          exact ⟨(ih (i + 1) hk (by omega)).1, fun r hr => (ih (i + 1) hk (by omega)).2 r hr⟩
      · simp only [requestGo, henv]
        by_cases hlast : i = n - 1
        · rw [if_pos hlast]
          exact ⟨fun hcon => RequestResult.noConfusion hcon,
            fun r hr => RequestResult.noConfusion hr⟩
        · have hk : 1 ≤ k := by omega
          rw [if_neg hlast]
          exact ⟨(ih (i + 1) hk (by omega)).1, fun r hr => (ih (i + 1) hk (by omega)).2 r hr⟩

lemma snd_ite_pair {c : Prop} [Decidable c] {a b : RecResult} {l : List ApiCall} :
    (if c then (a, l) else (b, l)).2 = l := by
  by_cases h : c
  · rw [if_pos h]
  · rw [if_neg h]

/-! Claim theorems. -/

/-- Claim C3 (code_bug evidence): on the create branch in live mode, a 2xx
response whose parsed body carries the record identifier attio_1 is logged as
a Success with the upserted-no-content sentinel instead of the identifier,
because the post helper already parsed the body and the subsequent json()
call lands in the bare except; the second conjunct shows that the very
classification block, as reached on the upsert branch with a raw response,
extracts the identifier as the claim and the repository test expect. -/
theorem claim3_post_success_misclassified :
    liveStep
      (CallResult.ok2xx (some (Value.vobj [("data",
        Value.vobj [("id", Value.vobj [("record_id", Value.vstr "attio_1")])])])))
      "people" [("name", "name")]
      (Value.vobj [("id", Value.vstr "1"), ("name", Value.vstr "Alice")]) =
    (RecResult.success (Value.vstr "1") (Value.vstr "upserted-no-content"),
     [ApiCall.post "/objects/people/records"
       (Value.vobj [("data", Value.vobj [("values", Value.vobj [("name",
         Value.varr [Value.vobj [("full_name", Value.vstr "Alice"),
           ("first_name", Value.vstr "Alice"), ("last_name", Value.vstr "")]])])])])]) ∧
    classifyPutResponse (Value.vstr "1")
      (some (Value.vobj [("data",
        Value.vobj [("id", Value.vobj [("record_id", Value.vstr "attio_1")])])])) =
    RecResult.success (Value.vstr "1") (Value.vstr "attio_1") :=
  ⟨rfl, rfl⟩

/-- Claim C4: on sustained transient failure the retry loop of
APIClient.request makes exactly MAX_RETRIES attempts, sleeps two to the power
of the attempt index between consecutive attempts, so the delays are
1, 2, 4, ... doubling each time, and finally re-raises the failure of the
last attempt to the caller. -/
theorem claim4_retry_backoff (env : Nat → AttemptResult) (n : Nat)
    (h1 : 1 ≤ n) (hf : ∀ j, j < n → isFailure (env j) = true) :
    (request env n).attemptsMade = n ∧
    (request env n).sleeps = (List.range (n - 1)).map (fun j => 2 ^ j) ∧
    (request env n).result = .raisedErr (failMsg (env (n - 1))) := by
  have h := requestGo_allFail env n hf n 0 h1 (by omega)
  rw [request, List.range_eq_range' n, h, List.range_eq_range' (n - 1)]
  exact ⟨rfl, rfl, rfl⟩

/-- Witness for claim C4 at three sustained HTTP failures. -/
theorem claim4_witness :
    (request (fun _ => AttemptResult.httpError "boom") 3).attemptsMade = 3 ∧
    (request (fun _ => AttemptResult.httpError "boom") 3).sleeps =
      (List.range 2).map (fun j => 2 ^ j) ∧
    (request (fun _ => AttemptResult.httpError "boom") 3).result =
      .raisedErr "boom" :=
  claim4_retry_backoff (fun _ => AttemptResult.httpError "boom") 3
    (by omega) (fun _ _ => rfl)

/-- Claim C10: with MAX_RETRIES at least one, APIClient.request either returns
a response produced by a successful attempt or raises; the trailing return of
None after the loop is never reached. -/
theorem claim10_request_no_fallthrough (env : Nat → AttemptResult) (n : Nat)
    (h1 : 1 ≤ n) :
    (request env n).result ≠ RequestResult.fellThrough ∧
    (∀ r, (request env n).result = .okResp r →
      ∃ j, j < n ∧ env j = .succeedsWith r) := by
  have h := requestGo_result env n n 0 h1 (by omega)
  rw [request, List.range_eq_range' n]
  exact h

/-- Witness for claim C10 with a single immediately successful attempt. -/
theorem claim10_witness :
    (request (fun _ => AttemptResult.succeedsWith (Value.vstr "ok")) 1).result ≠
      RequestResult.fellThrough :=
  (claim10_request_no_fallthrough (fun _ => AttemptResult.succeedsWith (Value.vstr "ok")) 1
    (by omega)).1

/-- Claim C8: with the dry-run flag set, execute_migration issues no API call
for any input record and records exactly one synthetic Success, carrying the
dry-run identifier, per input record, in order. -/
theorem claim8_dry_run_no_calls (targetObject : String)
    (mapping : List (String × String)) (env : Nat → CallResult)
    (records : List Value) (i : Nat) :
    execute_migration true targetObject mapping env records i =
      (records.map (fun r => RecResult.success (twentyIdOf r) (Value.vstr "dry-run-id")),
       []) := by
  induction records generalizing i with
  | nil => rfl
  | cons r rs ih =>
      simp only [execute_migration, if_true, List.map_cons]
      rw [ih (i + 1)]
      rfl

/-- Claim C6: in live mode the call issued for a record is the upsert PUT with
matching attribute email_addresses exactly when the target type is people and
the built payload holds a truthy email_addresses entry; in every other case
it is the create POST.  Both calls carry the same wrapped payload. -/
theorem claim6_upsert_vs_create (env : CallResult) (targetObject : String)
    (mapping : List (String × String)) (record : Value) :
    (liveStep env targetObject mapping record).2 =
      if (targetObject == "people" && emailUpsertable (buildValues mapping record)) = true
      then
        [ApiCall.put (recordsEndpoint targetObject)
          (Value.vobj [("data",
            Value.vobj [("values", Value.vobj (buildValues mapping record))])])
          "email_addresses"]
      else
        [ApiCall.post (recordsEndpoint targetObject)
          (Value.vobj [("data",
            Value.vobj [("values", Value.vobj (buildValues mapping record))])])] := by
  by_cases hc :
      (targetObject == "people" && emailUpsertable (buildValues mapping record)) = true
  · rw [if_pos hc]
    simp only [liveStep, hc, if_true]
    cases env with
    | raisedErr m => rfl
    | ok2xx b => rfl
  · rw [if_neg hc]
    simp only [liveStep]
    rw [if_neg hc]
    cases env with
    | raisedErr m => rfl
    | ok2xx b =>
        cases b with
        | none => rfl
        | some parsed => exact snd_ite_pair

/-- Claim C5 counterexample: the location object emitted for a record that
supplies only a city value has ten sub-keys, not nine as the claim counts
them. -/
theorem claim5_counterexample :
    subKeys (buildValues [("city", "primary_location")]
        (Value.vobj [("city", Value.vstr "Paris")])) "primary_location" =
      ["line_1", "line_2", "line_3", "line_4", "locality", "region", "postcode",
       "country_code", "latitude", "longitude"] ∧
    (subKeys (buildValues [("city", "primary_location")]
        (Value.vobj [("city", Value.vstr "Paris")])) "primary_location").length ≠ 9 :=
  ⟨rfl, by decide⟩

/-- Claim C5 (amended to ten sub-keys): for every record with a source value
that is neither None nor empty mapped to the location target field, the built
payload holds the fixed-shape location object with all ten sub-keys, the four
line keys, region and postcode as empty strings, locality carrying the
supplied value, and country code, latitude and longitude as null. -/
theorem claim5_location_ten_subkeys (sourceField : String)
    (fs : List (String × Value)) (v : Value)
    (hl : lookupField fs sourceField = some v) (hk : keepValue v = true) :
    buildValues [(sourceField, "primary_location")] (Value.vobj fs) =
      [("primary_location", Value.varr [Value.vobj [("line_1", Value.vstr ""),
        ("line_2", Value.vstr ""), ("line_3", Value.vstr ""), ("line_4", Value.vstr ""),
        ("locality", v), ("region", Value.vstr ""), ("postcode", Value.vstr ""),
        ("country_code", Value.vnull), ("latitude", Value.vnull),
        ("longitude", Value.vnull)]])] := by
  simp only [buildValues, List.foldl, hl]
  rw [if_pos hk]
  rfl

/-- Witness for claim C5 with a record carrying only a city. -/
theorem claim5_witness :
    buildValues [("city", "primary_location")] (Value.vobj [("city", Value.vstr "Paris")]) =
      [("primary_location", Value.varr [Value.vobj [("line_1", Value.vstr ""),
        ("line_2", Value.vstr ""), ("line_3", Value.vstr ""), ("line_4", Value.vstr ""),
        ("locality", Value.vstr "Paris"), ("region", Value.vstr ""),
        ("postcode", Value.vstr ""), ("country_code", Value.vnull),
        ("latitude", Value.vnull), ("longitude", Value.vnull)]])] :=
  claim5_location_ten_subkeys "city" [("city", Value.vstr "Paris")]
    (Value.vstr "Paris") rfl rfl

lemma extractLoop_continuing (msg : String) (rest : List PageFetch) :
    ∀ (pres : List PageFetch) (acc : List Value),
      (∀ p ∈ pres, continuingPage "people" p = true) →
      extractLoop "people" (pres ++ PageFetch.raisesErr msg :: rest) acc =
        .error msg := by
  intro pres
  induction pres with
  | nil => intro acc _; rfl
  | cons p ps ih =>
      intro acc hall
      have hp := hall p (List.mem_cons_self p ps)
      have htail := fun q hq => hall q (List.mem_cons_of_mem p hq)
      rcases p with m | _ | body
      · simp [continuingPage] at hp
      · simp [continuingPage] at hp
      · rcases body with _ | b | nn | s | xs | bf
        · simp [continuingPage] at hp
        · simp [continuingPage] at hp
        · simp [continuingPage] at hp
        · simp [continuingPage] at hp
        · simp [continuingPage] at hp
        · simp only [continuingPage, Bool.and_eq_true] at hp
          obtain ⟨⟨h1, h2⟩, h3⟩ := hp
          rcases hld : lookupField bf "data" with _ | d
          · rw [hld] at h2; cases h2
          · rw [hld] at h2
            have h2b : (!(batchOf "people" d).isEmpty) = true := h2
            have hbe : (batchOf "people" d).isEmpty = false := by
              cases hh : (batchOf "people" d).isEmpty
              · rfl
              · rw [hh] at h2b
                exact absurd h2b (by decide)
            rw [List.cons_append]
            simp only [extractLoop, hld]
            rw [if_pos h1]
            simp only [hbe, Bool.false_eq_true, if_false]
            rw [if_pos h3]
            exact ih _ htail

/-- Claim C2 counterexample: when the client raises on the very first page,
extract_records propagates the error instead of returning the empty
accumulated list as the claim states. -/
theorem claim2_counterexample :
    extract_records "people" [PageFetch.raisesErr "boom"] = Except.error "boom" ∧
    (Except.error "boom" : Except String (List Value)) ≠ Except.ok [] :=
  ⟨rfl, fun h => Except.noConfusion h⟩

/-- Claim C2 (amended): when the retrying client fails on some page after any
run of pages on which pagination continues, the exception propagates out of
extract_records to its caller; the records accumulated so far are not
returned. -/
theorem claim2_extract_failure_propagates (pres : List PageFetch) (msg : String)
    (rest : List PageFetch) (hall : ∀ p ∈ pres, continuingPage "people" p = true) :
    extract_records "people" (pres ++ PageFetch.raisesErr msg :: rest) =
      Except.error msg :=
  extractLoop_continuing msg rest pres [] hall

/-- Witness for claim C2: one continuing page followed by a raising page. -/
theorem claim2_witness :
    extract_records "people"
      [PageFetch.page (Value.vobj [("data", Value.varr [Value.vobj []]),
        ("meta", Value.vobj [("next_cursor", Value.vstr "c")])]),
       PageFetch.raisesErr "boom"] = Except.error "boom" :=
  claim2_extract_failure_propagates
    [PageFetch.page (Value.vobj [("data", Value.varr [Value.vobj []]),
      ("meta", Value.vobj [("next_cursor", Value.vstr "c")])])] "boom" []
    (fun p hp => by
      rw [List.mem_singleton] at hp
      subst hp
      rfl)

/-- Claim C7 counterexample: the URL http://twitter.com/jack/ contains the
social domain segment, yet the code cleans it to jack while the pipeline the
claim states, segment after the last slash then query strip then first-dot
truncation, yields the empty string, because the code drops trailing slashes
before taking the last segment and the claim omits that step. -/
theorem claim7_counterexample :
    (strContainsSub (trimChars "http://twitter.com/jack/") "twitter.com/" ||
      strContainsSub (trimChars "http://twitter.com/jack/") "x.com/") = true ∧
    cleanXUrl "http://twitter.com/jack/" = "jack" ∧
    specHandleNorm (trimChars "http://twitter.com/jack/") = "" ∧
    cleanXUrl "http://twitter.com/jack/" ≠
      specHandleNorm (trimChars "http://twitter.com/jack/") :=
  ⟨rfl, rfl, rfl, by decide⟩

/-- Claim C7 (amended: trailing slashes are dropped before the last path
segment is taken): flatten_record is a function of its input record so it is
deterministic; on every non-empty URL containing a social domain segment the
handle normalisation equals the pipeline that drops trailing slashes, takes
the segment after the last remaining slash, strips a query suffix, and
truncates at the first dot; and the given malformed URL flattens to the
handle Example. -/
theorem claim7_flatten_handle_normalization :
    (∀ r1 r2 : Value, r1 = r2 → flatten_record r1 = flatten_record r2) ∧
    (∀ s : String, s ≠ "" →
      (strContainsSub (trimChars s) "twitter.com/" ||
        strContainsSub (trimChars s) "x.com/") = true →
      cleanXUrl s =
        truncAtFirstDot (stripQuerySuffix (lastSlashSegment (rstripSlash (trimChars s))))) ∧
    flatten_record (Value.vobj [("xLink",
        Value.vobj [("primaryLinkUrl", Value.vstr "http://twitter.com/Example.com")])]) =
      Value.vobj [("xLink",
        Value.vobj [("primaryLinkUrl", Value.vstr "http://twitter.com/Example.com")]),
        ("name_full", Value.vstr ""), ("email_primary", Value.vstr ""),
        ("linkedin_url", Value.vstr ""), ("x_url", Value.vstr "Example")] := by
  refine ⟨fun r1 r2 h => congrArg flatten_record h, ?_, rfl⟩
  intro s hs hsoc
  have hs2 : (s == "") = false := beq_eq_false_iff_ne.mpr hs
  simp only [cleanXUrl, hs2, Bool.false_eq_true, if_false]
  rw [if_pos hsoc]
  rfl

/-- Witness for claim C7 at the malformed URL of the specification. -/
theorem claim7_witness :
    cleanXUrl "http://twitter.com/Example.com" =
      truncAtFirstDot (stripQuerySuffix (lastSlashSegment
        (rstripSlash (trimChars "http://twitter.com/Example.com")))) :=
  claim7_flatten_handle_normalization.2.1 "http://twitter.com/Example.com"
    (by decide) rfl

/-- Claim C9: every group produced by process_people has more than one entry,
so groups of size one are discarded; on two records sharing the address
a@b.com up to letter case plus an unrelated third record the output is
exactly one group, keyed by the lowercased address, holding the two sharing
records; and the third record appears in no group. -/
theorem claim9_people_duplicates :
    (∀ (records : List Value) (g : String × List PersonEntry),
      g ∈ process_people records → 1 < g.2.length) ∧
    process_people [dupRecord1, dupRecord2, dupRecord3] =
      [("a@b.com", [dupEntry1, dupEntry2])] ∧
    (∀ g ∈ process_people [dupRecord1, dupRecord2, dupRecord3], ∀ e ∈ g.2,
      e.pid ≠ Value.vstr "p3") := by
  refine ⟨?_, rfl, ?_⟩
  · intro records g hg
    simp only [process_people] at hg
    have h := (List.mem_filter.mp hg).2
    exact of_decide_eq_true h
  · intro g hg e he
    have heq : process_people [dupRecord1, dupRecord2, dupRecord3] =
        [("a@b.com", [dupEntry1, dupEntry2])] := rfl
    rw [heq, List.mem_singleton] at hg
    subst hg
    rcases List.mem_cons.mp he with rfl | he2
    · intro hcon
      exact absurd (Value.vstr.inj hcon) (by decide)
    · rw [List.mem_singleton] at he2
      subst he2
      intro hcon
      exact absurd (Value.vstr.inj hcon) (by decide)

/-- Witness for claim C9: the produced group has more than one entry. -/
theorem claim9_witness : 1 < ([dupEntry1, dupEntry2] : List PersonEntry).length :=
  claim9_people_duplicates.1 [dupRecord1, dupRecord2, dupRecord3]
    ("a@b.com", [dupEntry1, dupEntry2])
    (by rw [claim9_people_duplicates.2.1]; exact List.mem_singleton.mpr rfl)

/-- Claim C1: for every duplicate group, the master is the earliest-created
member; when some delete of the others fails, no update call is issued and
the master row of the server state, its domain set included, is unmodified;
when every delete succeeds, the trace is exactly the deletes of the others
followed by the update of the master with the union of the domains of the
group, so the update comes only after every delete; when the server also
accepts the update, the master row ends holding exactly the unioned domains;
and processing always continues with the next group. -/
theorem claim1_merge_delete_before_update (env : MergeEnv)
    (state recs : List CompanyRec) (master : CompanyRec)
    (others : List CompanyRec)
    (hsort : sortByCreated recs = master :: others)
    (hid : master.id ∉ others.map (fun o => o.id)) :
    (∀ r ∈ recs, master.created_at ≤ r.created_at) ∧
    ((∃ o ∈ others, env.deleteOk o.id = false) →
      (∀ i ds, MergeCall.updateCall i ds ∉ (mergeGroup env state recs).2) ∧
      (mergeGroup env state recs).1.filter (fun r => r.id == master.id) =
        state.filter (fun r => r.id == master.id)) ∧
    ((∀ o ∈ others, env.deleteOk o.id = true) →
      (mergeGroup env state recs).2 =
        others.map (fun o => MergeCall.deleteCall o.id) ++
          [MergeCall.updateCall master.id (unionDomains master others)]) ∧
    ((∀ o ∈ others, env.deleteOk o.id = true) → env.updateOk master.id = true →
      (mergeGroup env state recs).1.filter (fun r => r.id == master.id) =
        (state.filter (fun r => r.id == master.id)).map
          (fun r => { r with domains := unionDomains master others })) ∧
    (∀ d, d ∈ unionDomains master others ↔
      (d ∈ master.domains ∨ ∃ o ∈ others, d ∈ o.domains)) ∧
    (∀ (g : List CompanyRec) (gs : List (List CompanyRec)) (s0 : List CompanyRec),
      (processGroups env s0 (g :: gs)).2 =
        (mergeGroup env s0 g).2 ++ (processGroups env (mergeGroup env s0 g).1 gs).2) := by
  have hmg_fail : (deleteOthers env state others).2.2 = false →
      mergeGroup env state recs =
        ((deleteOthers env state others).1, (deleteOthers env state others).2.1) := by
    intro hf
    unfold mergeGroup
    rw [hsort]
    simp only [hf, Bool.false_eq_true, if_false]
  have hmg_ok : (deleteOthers env state others).2.2 = true →
      mergeGroup env state recs =
        ((if env.updateOk master.id then
            applyUpdate (deleteOthers env state others).1 master.id
              (unionDomains master others)
          else (deleteOthers env state others).1),
         (deleteOthers env state others).2.1 ++
           [MergeCall.updateCall master.id (unionDomains master others)]) := by
    intro ht
    unfold mergeGroup
    rw [hsort]
    simp only [ht, if_true]
  refine ⟨?_, ?_, ?_, ?_, ?_, fun g gs s0 => rfl⟩
  · intro r hr
    have hmem : r ∈ sortByCreated recs :=
      (List.perm_insertionSort creLE recs).mem_iff.mpr hr
    rw [hsort] at hmem
    have hsorted : List.Sorted creLE (master :: others) := by
      rw [← hsort]; exact List.sorted_insertionSort creLE recs
    rcases List.mem_cons.mp hmem with rfl | hmem
    · exact Nat.le_refl _
    · exact List.rel_of_sorted_cons hsorted r hmem
  · rintro ⟨o, ho, hfail⟩
    have hf := deleteOthers_anyFail env others state ⟨o, ho, hfail⟩
    rw [hmg_fail hf]
    refine ⟨?_, deleteOthers_filter env master.id others state hid⟩
    intro i ds hmem
    obtain ⟨j, hj⟩ := deleteOthers_calls_delete env others state _ hmem
    exact MergeCall.noConfusion hj
  · intro hall
    obtain ⟨hcalls, hok⟩ := deleteOthers_allOk env others state hall
    rw [hmg_ok hok]
    rw [show ((if env.updateOk master.id then
        applyUpdate (deleteOthers env state others).1 master.id
          (unionDomains master others)
      else (deleteOthers env state others).1),
        (deleteOthers env state others).2.1 ++
          [MergeCall.updateCall master.id (unionDomains master others)]).2 =
      (deleteOthers env state others).2.1 ++
        [MergeCall.updateCall master.id (unionDomains master others)] from rfl]
    rw [hcalls]
  · intro hall hup
    obtain ⟨hcalls, hok⟩ := deleteOthers_allOk env others state hall
    rw [hmg_ok hok]
    simp only [hup, if_true]
    rw [applyUpdate_filter, deleteOthers_filter env master.id others state hid]
  · intro d
    rw [unionDomains, mem_dedupFirst, List.mem_append, List.mem_flatten]
    constructor
    · rintro (h | ⟨s2, hs2, hds⟩)
      · exact Or.inl h
      · obtain ⟨o, ho, rfl⟩ := List.mem_map.mp hs2
        exact Or.inr ⟨o, ho, hds⟩
    · rintro (h | ⟨o, ho, hds⟩)
      · exact Or.inl h
      · exact Or.inr ⟨o.domains, List.mem_map.mpr ⟨o, ho, rfl⟩, hds⟩

/-- Witness for claim C1 at the three-company scenario of the specification,
where the delete of the second duplicate fails: the master row of the state
is unmodified. -/
theorem claim1_witness :
    (mergeGroup mergeEnvFail [mergeM, mergeO1, mergeO2]
        [mergeM, mergeO1, mergeO2]).1.filter (fun r => r.id == mergeM.id) =
      [mergeM, mergeO1, mergeO2].filter (fun r => r.id == mergeM.id) :=
  ((claim1_merge_delete_before_update mergeEnvFail [mergeM, mergeO1, mergeO2]
      [mergeM, mergeO1, mergeO2] mergeM [mergeO1, mergeO2] rfl (by decide)).2.1
    ⟨mergeO2, by decide, rfl⟩).2

end Trolley
